import Mathlib

/-!
Verification of the A2J legal-case extraction/archival pipeline.

Shallow embedding of the Python sources under `src/`:
  * `a2j_legal/llm_processor.py` — response parsing, retry loops, field
    assembly, semantic comparison, evidence-line cleanup;
  * `a2j_legal/excel_utils.py`  — snapshot merge (`process_and_save_cases`),
    prior-snapshot discovery (`find_latest_excel_file`), key loading
    (`load_existing_cases`).

Python strings are modelled as `List Char` (`Str`).  Python string
operations used by the code (`strip`, `split(sep)`, `split(sep, 1)`,
`in`, `replace`, `lower`) are defined below and mirror CPython semantics
for the character sets that occur in the sources; `str.strip()` strips
the standard whitespace characters listed in `isPyWs`.
-/

abbrev Str := List Char

/-- Whitespace characters stripped by Python `str.strip()` / matched by `\s`
(the standard ASCII whitespace plus NEL and NBSP). -/
def isPyWs (c : Char) : Bool :=
  c == ' ' || c == '\t' || c == '\n' || c == '\r' ||
  c == Char.ofNat 11 || c == Char.ofNat 12 || c == Char.ofNat 133 || c == Char.ofNat 160

/-- Drop leading whitespace (the first half of Python `str.strip()`). -/
def trimLeft (s : Str) : Str := s.dropWhile isPyWs

/-- Drop trailing whitespace (the second half of Python `str.strip()`). -/
def trimRight (s : Str) : Str := ((s.reverse).dropWhile isPyWs).reverse

/-- Python `str.strip()`. -/
def pyStrip (s : Str) : Str := trimRight (trimLeft s)

/-- Python `s.split(c)` for a single-character separator: split on every
occurrence, keeping empty pieces. -/
def splitChar (c : Char) : Str → List Str
  | [] => [[]]
  | x :: xs =>
    if x = c then [] :: splitChar c xs
    else
      match splitChar c xs with
      | h :: t => (x :: h) :: t
      | [] => [[x]]

/-- Python `s.split(sep, 1)` for a non-empty separator `p`: locate the
leftmost occurrence of `p` in `s` and return the pieces before and after
it, or `none` when `p` does not occur. -/
def splitFirst (p : Str) : Str → Option (Str × Str)
  | [] => if p = [] then some ([], []) else none
  | c :: cs =>
    if p.isPrefixOf (c :: cs) then some ([], (c :: cs).drop p.length)
    else
      match splitFirst p cs with
      | some (a, b) => some (c :: a, b)
      | none => none

/-- Python `p in s` (substring containment). -/
def occursB (p s : Str) : Bool := (splitFirst p s).isSome

/-- Python `str.lower()` (ASCII case folding suffices for the sources). -/
def pyLower (s : Str) : Str := s.map Char.toLower

-- ### Model of `a2j_legal/llm_processor.py`

/-- The literal answer marker of the Gemini marker protocol. -/
def answersMarker : Str := "|||ANSWERS|||".toList

/-- The literal evidence marker of the Gemini marker protocol. -/
def evidenceMarker : Str := "|||EVIDENCE|||".toList

/-- The blank-line separator used by the fallback parse. -/
def blankLine : Str := "\n\n".toList

/-- The answers string produced by the marker-branch exception handler
(`"Error\tError\tError\tError\tError\tError"`, six fields). -/
def errorAnswers : Str := "Error\tError\tError\tError\tError\tError".toList

/-- The evidence string produced by the marker-branch exception handler. -/
def errorEvidence : Str := "Error processing output".toList

/-- The default evidence when the fallback split finds no second part. -/
def noSupportingText : Str := "No supporting text returned.".toList

/-- Model of `LLMProcessor.process_gemini_output` (llm_processor.py lines 280-308).
If both markers occur in `output`, split after the first `|||ANSWERS|||`
and then on the first `|||EVIDENCE|||` of the remainder; when that second
split fails (the only exception the `try` block can raise: tuple
unpacking of a 1-element list), fall into the handler producing the
`"Error"` strings.  Without both markers, split on the first `"\n\n"`. -/
def process_gemini_output (output : Str) : Str × Str :=
  if occursB answersMarker output && occursB evidenceMarker output then
    match splitFirst answersMarker output with
    | some (_, answerAndEvidence) =>
      match splitFirst evidenceMarker answerAndEvidence with
      | some (answers, evidence) => (pyStrip answers, pyStrip evidence)
      | none => (errorAnswers, errorEvidence)
    | none => (errorAnswers, errorEvidence)
  else
    match splitFirst blankLine output with
    | some (answers, evidence) => (pyStrip answers, pyStrip evidence)
    | none => (pyStrip output, noSupportingText)

/-- Expected answer-field count of the two Gemini prompt templates
(`process_case`: `6 if idx == 0 else 7`); the spec's `PromptSpec.expectedFieldCount`. -/
def geminiExpectedFieldCount (idx : Nat) : Nat := if idx = 0 then 6 else 7

/-- The per-prompt field list a Gemini response yields in `process_case`:
`answers.split("\t")` of the parsed answers segment. -/
def geminiPromptFields (output : Str) : List Str :=
  splitChar '\t' (process_gemini_output output).1

/-- The Gemini answers string of prompt `idx` in `process_case`: the
parsed segment, or the `"NA"` placeholder line when the call returned
`None`/raised (`"\t".join(["NA"] * (6 if idx == 0 else 7))`). -/
def geminiAnswersFor (idx : Nat) (output : Option Str) : Str :=
  match output with
  | some o => (process_gemini_output o).1
  | none =>
    match geminiExpectedFieldCount idx with
    | 0 => []
    | n + 1 =>
      (List.replicate n ("NA\t".toList)).flatten ++ "NA".toList

/-- Model of `while len(all_fields) < 13: all_fields.append("NA")` (both in
`process_case` and in `process_and_save_cases`). -/
def padNA (n : Nat) (l : List Str) : List Str :=
  l ++ List.replicate (n - l.length) ("NA".toList)

/-- The concatenated Gemini field vector of `process_case`: the two
prompts' tab-split answers concatenated, then padded with `"NA"` to at
least 13 entries. -/
def all_fields_of (o1 o2 : Option Str) : List Str :=
  padNA 13 (splitChar '\t' (geminiAnswersFor 0 o1) ++ splitChar '\t' (geminiAnswersFor 1 o2))

/-- The GPT field list of `process_case` (lines 441-454): empty/blank
output gives four `"NA"`, otherwise tab-split of the stripped output,
padded with `"NA"` to 4 and truncated to exactly 4. -/
def gpt_fields_of (gptOutput : Str) : List Str :=
  if pyStrip gptOutput = [] then List.replicate 4 ("NA".toList)
  else
    let fs := splitChar '\t' (pyStrip gptOutput)
    (fs ++ List.replicate (4 - fs.length) ("NA".toList)).take 4

/-- A value `ast.literal_eval` may return, at the shapes relevant to
the comparison responses: `None`, booleans, integers, strings and
(nested) lists of these. -/
inductive PyLit where
  | pyNone
  | pyBool (b : Bool)
  | pyInt (n : Int)
  | pyStr (s : Str)
  | pyList (items : List PyLit)

/-- Model of `LLMProcessor.compare_llm_output` (lines 350-368).
`ast.literal_eval(response)` is a standard-library call treated as an
oracle, like the backend calls: `evalResult = some v` models the call
returning the parsed literal `v`, `none` models it raising.  A parsed
literal is returned verbatim — no type or length check is performed —
and only a raise triggers the `[True] * len(output_1)` fallback. -/
def compare_llm_output (evalResult : Option PyLit) (output_1 : List Str) : PyLit :=
  match evalResult with
  | some v => v
  | none => PyLit.pyList (List.replicate output_1.length (PyLit.pyBool true))

-- ### Evidence-line cleanup (`clean_evidence_line`, lines 370-395)

/-- Model of `re.sub(r'^\s*\d+\.\s*', '', line)`: strip one leading enumeration
prefix "whitespace, digits, period, whitespace". -/
def stripEnum (s : Str) : Str :=
  let afterWs := s.dropWhile isPyWs
  let digits := afterWs.takeWhile Char.isDigit
  let afterDigits := afterWs.dropWhile Char.isDigit
  if digits.isEmpty then s
  else
    match afterDigits with
    | c :: r => if c = '.' then r.dropWhile isPyWs else s
    | [] => s

/-- Whether the enumeration-prefix regex `^\s*\d+\.\s*` matches `s`. -/
def startsEnum (s : Str) : Bool :=
  let afterWs := s.dropWhile isPyWs
  !(afterWs.takeWhile Char.isDigit).isEmpty &&
    (match afterWs.dropWhile Char.isDigit with
     | c :: _ => c = '.'
     | [] => false)

/-- The character class `[\'"""]` of the quote-stripping regexes:
ASCII apostrophe and ASCII double quote (the class repeats `"`). -/
def isQuoteChar (c : Char) : Bool := c == Char.ofNat 39 || c == Char.ofNat 34

/-- Model of `re.sub(r'^[\'"""]', '', s)`: remove one leading quote character. -/
def dropLeadQuote : Str → Str
  | [] => []
  | c :: cs => if isQuoteChar c then cs else c :: cs

/-- The trailing-quote removal on the reversed string: drop a leading
quote, or a quote right after a leading `'\n'` (Python's `$` also
matches just before a newline that ends the string). -/
def dropQuoteRev (t : Str) : Str :=
  match t with
  | c :: rest =>
    if isQuoteChar c then rest
    else if c = '\n' then
      match rest with
      | q :: rest2 => if isQuoteChar q then '\n' :: rest2 else t
      | [] => t
    else t
  | [] => t

/-- Model of `re.sub(r'[\'"""]$', '', s)`: remove one trailing quote character
(also when it sits just before a final newline). -/
def dropTrailQuote (s : Str) : Str := (dropQuoteRev s.reverse).reverse

/-- Whether `s` begins with a quote character (the leading-quote regex
matches). -/
def headQuote : Str → Bool
  | [] => false
  | c :: _ => isQuoteChar c

/-- Whether `s` ends with a quote character. -/
def endsQuote (s : Str) : Bool :=
  match s.reverse with
  | c :: _ => isQuoteChar c
  | [] => false

/-- Model of `s.replace('\xa0', ' ')`. -/
def replaceNbsp (s : Str) : Str :=
  s.map fun c => if c == Char.ofNat 160 then ' ' else c

/-- Model of `LLMProcessor.clean_evidence_line`. -/
def clean_evidence_line (s : Str) : Str :=
  pyStrip (dropTrailQuote (dropLeadQuote (replaceNbsp (stripEnum s))))

-- ### Retry loops (`extract_gemini_output`, `extract_openai_output`)

/-- Exhaustion message of the Gemini retry loop (`max_retries = 5`). -/
def geminiExhaustMsg : Str := "Error: Failed after 5 attempts.".toList

/-- Exhaustion message of the OpenAI retry loop (`max_retries = 3`). -/
def openaiExhaustMsg : Str := "Error: Failed after 3 attempts.".toList

/-- The fixed backoff interval of the Gemini loop (`wait_time = 60`). -/
def geminiWaitTime : Nat := 60

/-- The fixed backoff interval of the OpenAI loop (`wait_time = 60`). -/
def openaiWaitTime : Nat := 60

/-- The `while attempt < max_retries` loop of `extract_gemini_output`,
with `remaining = max_retries - attempt` so the recursion is structural.
The backend is an oracle giving attempt `i` either a response text
(`some`) or an exception (`none`).  Returns the result string together
with the number of calls made and the number of backoff sleeps taken. -/
def geminiRetryLoop (backend : Nat → Option Str) (attempt : Nat) : Nat → Str × Nat × Nat
  | 0 => (geminiExhaustMsg, 0, 0)
  | remaining + 1 =>
    match backend attempt with
    | some s => (pyStrip s, 1, 0)
    | none =>
      let q := geminiRetryLoop backend (attempt + 1) remaining
      (q.1, q.2.1 + 1, q.2.2 + 1)

/-- Model of `LLMProcessor.extract_gemini_output` (lines 228-262): the budget
guard `min(token_limit - input_tokens - 100, 500000) < 1000` returns
`"Error: Input too large."` with no call and no sleep; otherwise the
retry loop runs with `max_retries = 5`. -/
def extract_gemini_output (inputTokens tokenLimit : Int) (backend : Nat → Option Str) :
    Str × Nat × Nat :=
  if min (tokenLimit - inputTokens - 100) 500000 < 1000 then
    ("Error: Input too large.".toList, 0, 0)
  else geminiRetryLoop backend 0 5

/-- An OpenAI attempt outcome: a response text, or an exception whose
message is the given string (`str(e)`). -/
inductive OpenAIOutcome where
  | ok (text : Str)
  | err (msg : Str)

/-- Model of `"rate limit" in str(e).lower()`. -/
def isRateLimited (msg : Str) : Bool := occursB ("rate limit".toList) (pyLower msg)

/-- The `while attempt < max_retries` loop of `extract_openai_output`
(lines 310-348): rate-limit failures sleep and retry; any other failure
returns `"Error"` immediately. -/
def openaiRetryLoop (backend : Nat → OpenAIOutcome) (attempt : Nat) : Nat → Str × Nat × Nat
  | 0 => (openaiExhaustMsg, 0, 0)
  | remaining + 1 =>
    match backend attempt with
    | .ok s => (pyStrip s, 1, 0)
    | .err msg =>
      if isRateLimited msg then
        let q := openaiRetryLoop backend (attempt + 1) remaining
        (q.1, q.2.1 + 1, q.2.2 + 1)
      else ("Error".toList, 1, 0)

/-- Model of `LLMProcessor.extract_openai_output`: the loop with `max_retries = 3`. -/
def extract_openai_output (backend : Nat → OpenAIOutcome) : Str × Nat × Nat :=
  openaiRetryLoop backend 0 3

-- ### Model of `a2j_legal/excel_utils.py`

/-- A scraped case (`a2j_legal/scraper.py`, class `Case`): only the
fields `process_and_save_cases` reads. -/
structure Case where
  title : Str
  unique_title : Str
  url : Str
  citation : Str
  date : Str
deriving DecidableEq

/-- The per-case LLM results dictionary produced by `process_case`
(`{"all_fields", "all_evidence", "gpt_fields", "gemini_fields",
"differences"}`), at the types those values are documented and produced
to have. -/
structure CaseResults where
  all_fields : List Str
  all_evidence : List Str
  gpt_fields : List Str
  gemini_fields : List Str
  differences : List Bool
deriving DecidableEq

/-- The empty dictionary default of `llm_results.get(case.unique_title, {})`. -/
def emptyResults : CaseResults := ⟨[], [], [], [], []⟩

/-- One worksheet cell: its value plus the formatting state the code
reads and writes.  `fmt` stands for the font/border/number-format/
protection/alignment bundle and `fill` for the background fill, both
`none` when left at openpyxl defaults (`has_style` is false exactly when
every component is default); `styleName` is the named style (`none` =
`Normal`); `comment` is `(text, author)`. -/
structure Cell where
  value : Str
  fmt : Option Str
  fill : Option Str
  styleName : Option Str
  hyperlink : Option Str
  comment : Option (Str × Str)
deriving DecidableEq

/-- A cell holding only a value, as produced by `ws.append`. -/
def valueCell (v : Str) : Cell :=
  { value := v, fmt := none, fill := none, styleName := none, hyperlink := none, comment := none }

/-- A cell openpyxl materialises for an unwritten position. -/
def emptyCell : Cell := valueCell []

/-- A data row of a snapshot (the header row is implicit: every snapshot
written by this code carries `csv_header`, 17 columns). -/
abbrev Row := List Cell

/-- The length of `csv_header` (17 named columns). -/
def csvHeaderLength : Nat := 17

/-- The style components of the built-in `Hyperlink` named style (blue
underlined font, everything else default).  Assigning
`cell.style = "Hyperlink"` replaces the cell's whole style array with
this bundle, so any fill copied beforehand is discarded. -/
def hyperlinkStyleFmt : Str := "Hyperlink named style components".toList

/-- The cell-copy body of the carry-forward loop in
`process_and_save_cases` (lines 329-350): the value is always copied;
font/border/fill/number-format/protection/alignment only when
`src_cell.has_style` (equivalently: they are copied unchanged, since a
style-free source cell has default components).  When a hyperlink is
copied, `dst_cell.style = "Hyperlink"` is then assigned, which replaces
the entire just-copied style array with the named style's components —
wiping, in particular, a copied highlight fill.  The comment is rebuilt
from `(text, author)` afterwards. -/
def copyCell (src : Cell) : Cell :=
  let hs := src.fmt.isSome || src.fill.isSome
  let copied : Cell :=
    { value := src.value
      fmt := if hs then src.fmt else none
      fill := if hs then src.fill else none
      styleName := none
      hyperlink := none
      comment := src.comment }
  match src.hyperlink with
  | some h =>
    { copied with
      hyperlink := some h
      styleName := some "Hyperlink".toList
      fmt := some hyperlinkStyleFmt
      fill := none }
  | none => copied

/-- The carry-forward loop copies columns `1 .. min(len(csv_header),
source max_column)`; since every snapshot's header row has 17 columns,
that is exactly columns 1-17, openpyxl materialising empty cells where
the source row is shorter. -/
def copyRow (r : Row) : Row :=
  ((r ++ List.replicate (csvHeaderLength - r.length) emptyCell).take csvHeaderLength).map copyCell

/-- A cell on which the carry-forward copy is the identity: a
hyperlinked cell must carry exactly the `Hyperlink` named style (with
the style components that assignment installs) and no fill, and a plain
cell must carry no named style. -/
def cellWF (c : Cell) : Prop :=
  if c.hyperlink.isSome then
    c.styleName = some "Hyperlink".toList ∧ c.fmt = some hyperlinkStyleFmt ∧ c.fill = none
  else c.styleName = none

instance (c : Cell) : Decidable (cellWF c) := by unfold cellWF; infer_instance

/-- A row of exactly the schema's 17 columns, all cells well-formed. -/
def rowWF (r : Row) : Prop := r.length = csvHeaderLength ∧ ∀ c ∈ r, cellWF c

instance (r : Row) : Decidable (rowWF r) := by unfold rowWF; infer_instance

/-- Model of `ExcelManager.load_existing_cases` (lines 165-199) applied to the
rows of a readably loaded prior snapshot carrying the standard header:
the set of stripped non-empty `"Unique Name"` (column 2) values. -/
def load_existing_cases (recs : List Row) : List Str :=
  recs.filterMap fun r =>
    let v := ((r[1]?).map Cell.value).getD []
    if v = [] then none else some (pyStrip v)

/-- The prior-snapshot input of one merge run: either
`find_latest_excel_file` found nothing, or it found a file with the
given data rows, whose two loads (`load_existing_cases` at line 226 and
`openpyxl.load_workbook` at line 229) each either succeed or raise. -/
inductive PriorSource where
  | noFile
  | file (recs : List Row) (keysReadable : Bool) (bookReadable : Bool)

/-- The `existing_cases` set a merge run works with. -/
def existingKeysOf : PriorSource → List Str
  | .noFile => []
  | .file recs kOk _ => if kOk then load_existing_cases recs else []

/-- The rows carried forward (lines 320-355): present only when the
workbook load succeeded. -/
def carriedOf : PriorSource → List Row
  | .noFile => []
  | .file recs _ bOk => if bOk then recs.map copyRow else []

/-- Model of `ExcelManager.clean_and_encode_text` (lines 140-163).  NFKC
normalisation is modelled as the identity and `urllib.parse.quote` at
ASCII fidelity; no claim observes the encoded text beyond equality. -/
def hexDigit (n : Nat) : Char :=
  if n < 10 then Char.ofNat (48 + n) else Char.ofNat (55 + n)

/-- Percent-encoding of one character (codepoint bytes at ASCII fidelity). -/
def pctEncodeChar (c : Char) : Str :=
  let n := c.toNat
  ['%', hexDigit ((n / 16) % 16), hexDigit (n % 16)]

/-- Model of `urllib.parse.quote(text, safe='%')`: alphanumerics, `_.-~` and the
safe character are kept, everything else percent-encoded. -/
def pyQuote (s : Str) : Str :=
  (s.map fun c =>
    if c.isAlphanum || c == '_' || c == '.' || c == '-' || c == '~' || c == '%' then [c]
    else pctEncodeChar c).flatten

/-- Replace every occurrence of non-empty `p` in `s` by `q`
(Python `str.replace`), with enough fuel for every occurrence: each
replacement consumes at least one character of `s`. -/
def replaceAllFuel (p q : Str) : Nat → Str → Str
  | 0, s => s
  | fuel + 1, s =>
    match splitFirst p s with
    | none => s
    | some (a, b) => a ++ q ++ replaceAllFuel p q fuel b

/-- Python `str.replace` for the non-empty patterns the code uses. -/
def replaceAll (p q : Str) (s : Str) : Str := replaceAllFuel p q s.length s

/-- The dash variants replaced in `clean_and_encode_text`. -/
def dashEnDash : Char := Char.ofNat 0x2013

def dashEmDash : Char := Char.ofNat 0x2014

def dashNbHyphen : Char := Char.ofNat 0x2011

def clean_and_encode_text (s : Str) : Str :=
  let t := s.map fun c =>
    if c == dashEnDash || c == dashEmDash || c == dashNbHyphen then '-' else c
  let t := pyQuote t
  let t := replaceAll "%27%27...%27".toList "&text=".toList t
  let t := replaceAll "%22%22...%22".toList "&text=".toList t
  let t := replaceAll "%22...%22".toList "&text=".toList t
  let t := replaceAll "%27...%27".toList "&text=".toList t
  let t := replaceAll "...".toList "&text=".toList t
  replaceAll "-".toList "%2D".toList t

/-- Model of `ws.cell(row, col)` followed by a mutation of that cell: update the
cell at (0-based) index `i`. -/
def updateCell (r : Row) (i : Nat) (f : Cell → Cell) : Row :=
  match r[i]? with
  | some c => r.set i (f c)
  | none => r

/-- The evidence strings that suppress a hyperlink (line 270). -/
def noLinkEvidence (line : Str) : Bool :=
  line = "Not Discussed".toList || line = "NA".toList || line = "Undisclosed".toList

/-- Entries `0: 10, 1: 13, 2: 14, 3: 15` — the 1-based `column_map` of the
mismatch block, converted to 0-based cell indices. -/
def columnMap : Nat → Option Nat
  | 0 => some 9
  | 1 => some 12
  | 2 => some 13
  | 3 => some 14
  | _ => none

/-- The fill content of `highlight_fill` (`PatternFill FFC7CE`). -/
def highlightFill : Str := "FFC7CE".toList

/-- The comment author (`"A2JBot"`). -/
def commentAuthor : Str := "A2JBot".toList

/-- The mismatch note text: literal "Mismatch:", then the GPT value, then
the Gemini value, newline-separated with the backend labels. -/
def mismatchComment (gptVal geminiVal : Str) : Str :=
  "Mismatch:\nGPT: ".toList ++ gptVal ++ "\nGemini: ".toList ++ geminiVal

/-- The hyperlink loop of `process_and_save_cases` (lines 262-276):
for each index of the padded field list with a usable evidence line,
attach the text-anchor hyperlink (and the `"Hyperlink"` named style) to
the cell at 1-based column `5 + i`. -/
def hyperlinkPass (c : Case) (r : CaseResults) (fields : List Str) (base : Row) : Row :=
  (List.range fields.length).foldl (fun row i =>
    match r.all_evidence[i]? with
    | some line =>
      if noLinkEvidence line then row
      else updateCell row (4 + i) fun cell =>
        { cell with
          hyperlink := some (c.url ++ "#:~:text=".toList ++ clean_and_encode_text line)
          styleName := some "Hyperlink".toList
          fmt := some hyperlinkStyleFmt
          fill := none }
    | none => row) base

/-- The mismatch highlight loop (lines 286-294). -/
def mismatchFillPass (r : CaseResults) (row : Row) : Row :=
  (r.differences.enum.filterMap fun im =>
    if im.2 then columnMap im.1 else none).foldl (fun row col =>
      updateCell row col fun cell => { cell with fill := some highlightFill }) row

/-- The mismatch comment loop (lines 297-307). -/
def mismatchCommentPass (r : CaseResults) (row : Row) : Row :=
  r.differences.enum.foldl (fun row im =>
    if im.2 then
      match columnMap im.1 with
      | some col =>
        let gptVal := (r.gpt_fields[im.1]?).getD ("NA".toList)
        let gemVal := (r.gemini_fields[im.1]?).getD ("NA".toList)
        updateCell row col fun cell =>
          { cell with comment := some (mismatchComment gptVal gemVal, commentAuthor) }
      | none => row
    else row) row

/-- The row `process_and_save_cases` builds for one new case
(lines 243-307): `[title, unique_title, citation, date]` plus the
fields padded to 13, then the hyperlink loop over `enumerate(all_fields)`,
then the mismatch fill and comment loops. -/
def buildRow (c : Case) (res : Option CaseResults) : Row :=
  let r := res.getD emptyResults
  let fields := padNA 13 r.all_fields
  let base : Row := ([c.title, c.unique_title, c.citation, c.date] ++ fields).map valueCell
  mismatchCommentPass r (mismatchFillPass r (hyperlinkPass c r fields base))

/-- The result of one merge run: the data rows of the written snapshot
(in worksheet order, header omitted) and `new_case_count`. -/
structure MergeResult where
  records : List Row
  newCount : Nat
deriving DecidableEq

/-- The body of the `for case in cases` loop (lines 237-318): skip when
the stripped unique title is among the existing keys, else append the
built row and advance the counter.  The periodic checkpoint save does
not change the worksheet. -/
def mergeStep (keys : List Str) (llm : Str → Option CaseResults)
    (acc : MergeResult) (c : Case) : MergeResult :=
  if pyStrip c.unique_title ∈ keys then acc
  else
    { records := acc.records ++ [buildRow c (llm c.unique_title)]
      newCount := acc.newCount + 1 }

/-- Model of `ExcelManager.process_and_save_cases` (lines 201-373), with the
prior-snapshot discovery and loads abstracted into `prior`: process the
new cases in input order against the loaded key set, then append the
carried-forward prior rows. -/
def process_and_save_cases (cases : List Case) (llm : Str → Option CaseResults)
    (prior : PriorSource) : MergeResult :=
  let keys := existingKeysOf prior
  let afterNew := cases.foldl (mergeStep keys llm) ⟨[], 0⟩
  { records := afterNew.records ++ carriedOf prior
    newCount := afterNew.newCount }

/-- The rows the loop of `process_and_save_cases` emits for the new
cases: those whose stripped unique title is not among the keys, in input
order. -/
def newRowsOf (keys : List Str) (llm : Str → Option CaseResults) (cases : List Case) :
    List Row :=
  (cases.filter fun c => !decide (pyStrip c.unique_title ∈ keys)).map
    fun c => buildRow c (llm c.unique_title)

/-- A prior source whose loaded keys are backed by carried rows: if the
key column was read, the workbook was also loaded for carrying forward. -/
def priorCarriesKeys : PriorSource → Prop
  | .file _ true false => False
  | _ => True

/-- Model of `ExcelManager.find_latest_excel_file` (lines 70-104), over the
directory listing `files` (name, mtime) in `os.listdir` order: filter to
names matching `^\d{2}_\d{2}_\d{4}\.xlsx$` that are not the excluded
path, and return the first name of maximal mtime (a stable descending
sort by mtime followed by taking the head). -/
def matchesDatePattern (s : Str) : Bool :=
  match s with
  | [d1, d2, u1, d3, d4, u2, d5, d6, d7, d8, dot, x1, x2, x3, x4] =>
    d1.isDigit && d2.isDigit && u1 == '_' && d3.isDigit && d4.isDigit &&
    u2 == '_' && d5.isDigit && d6.isDigit && d7.isDigit && d8.isDigit &&
    dot == '.' && x1 == 'x' && x2 == 'l' && x3 == 's' && x4 == 'x'
  | _ => false

/-- Whether a file name is the excluded path. -/
def excludedB (exclude : Option Str) (name : Str) : Bool :=
  match exclude with
  | none => false
  | some e => name = e

/-- The head of the stable descending mtime sort: the earliest-listed
entry of maximal mtime. -/
def maxMtimeFold (f : Str × Int) (rest : List (Str × Int)) : Str × Int :=
  rest.foldl (fun best x => if best.2 < x.2 then x else best) f

def find_latest_excel_file (files : List (Str × Int)) (exclude : Option Str) :
    Option Str :=
  match files.filter (fun f => matchesDatePattern f.1 && !excludedB exclude f.1) with
  | [] => none
  | f :: rest => some (maxMtimeFold f rest).1

-- ### Lemmas about `splitFirst`

theorem splitFirst_eq_some (p : Str) :
    ∀ s a b, splitFirst p s = some (a, b) → s = a ++ p ++ b := by
  intro s
  induction s with
  | nil =>
    intro a b h
    by_cases hp : p = []
    · subst hp
      simp only [splitFirst, if_pos rfl, Option.some.injEq, Prod.mk.injEq] at h
      obtain ⟨rfl, rfl⟩ := h
      rfl
    · simp [splitFirst, hp] at h
  | cons c cs ih =>
    intro a b h
    by_cases hpre : p.isPrefixOf (c :: cs)
    · simp only [splitFirst, if_pos hpre, Option.some.injEq, Prod.mk.injEq] at h
      obtain ⟨h1, h2⟩ := h
      rw [ List.isPrefixOf_iff_prefix] at hpre
      obtain ⟨t, ht⟩ := hpre
      subst h1
      rw [← h2, ← ht, List.nil_append, List.drop_left]
    · simp only [splitFirst, if_neg hpre] at h
      cases hsf : splitFirst p cs with
      | none => rw [hsf] at h; exact absurd h (by simp)
      | some ab =>
        obtain ⟨a0, b0⟩ := ab
        rw [hsf] at h
        simp only [Option.some.injEq, Prod.mk.injEq] at h
        obtain ⟨h1, h2⟩ := h
        have hcs := ih a0 b0 hsf
        subst hcs
        rw [← h1, ← h2]
        simp

theorem splitFirst_isSome (p : Str) (hp : p ≠ []) :
    ∀ a b, (splitFirst p (a ++ p ++ b)).isSome := by
  intro a
  induction a with
  | nil =>
    intro b
    obtain ⟨c, p', rfl⟩ := List.exists_cons_of_ne_nil hp
    have hpre : (c :: p').isPrefixOf (c :: (p' ++ b)) := by
      rw [ List.isPrefixOf_iff_prefix]
      rw [show c :: (p' ++ b) = (c :: p') ++ b by simp]
      exact List.prefix_append _ _
    rw [show ([] : Str) ++ (c :: p') ++ b = c :: (p' ++ b) by simp]
    simp only [splitFirst, if_pos hpre, Option.isSome_some]
  | cons c a' ih =>
    intro b
    rw [show (c :: a') ++ p ++ b = c :: (a' ++ p ++ b) by simp]
    by_cases hpre : p.isPrefixOf (c :: (a' ++ p ++ b))
    · simp only [splitFirst, if_pos hpre, Option.isSome_some]
    · simp only [splitFirst, if_neg hpre]
      have h2 := ih b
      cases hsf : splitFirst p (a' ++ p ++ b) with
      | none => rw [hsf] at h2; simp at h2
      | some ab => obtain ⟨x, y⟩ := ab; rfl

theorem splitFirst_eq_none_of_no_decomp (p s : Str)
    (h : ¬ ∃ a b, s = a ++ p ++ b) : splitFirst p s = none := by
  cases hsf : splitFirst p s with
  | none => rfl
  | some ab =>
    obtain ⟨a, b⟩ := ab
    exact absurd ⟨a, b, splitFirst_eq_some p s a b hsf⟩ h

theorem occursB_false_of_no_decomp (p s : Str)
    (h : ¬ ∃ a b, s = a ++ p ++ b) : occursB p s = false := by
  unfold occursB
  rw [splitFirst_eq_none_of_no_decomp p s h]
  rfl

theorem no_decomp_of_occursB_false (p s : Str) (h : occursB p s = false) :
    ¬ ∃ a b, s = a ++ p ++ b := by
  rintro ⟨a, b, rfl⟩
  by_cases hp : p = []
  · subst hp
    unfold occursB at h
    cases s' : a ++ ([] : Str) ++ b with
    | nil => rw [s'] at h; simp [splitFirst] at h
    | cons c cs =>
      rw [s'] at h
      have hpre : ([] : Str).isPrefixOf (c :: cs) := by
        rw [ List.isPrefixOf_iff_prefix]; exact List.nil_prefix
      simp [splitFirst, hpre] at h
  · have hs := splitFirst_isSome p hp a b
    unfold occursB at h
    rw [h] at hs
    simp at hs

theorem dropLast_cons_of_ne_nil (c : Char) (l : Str) (h : l ≠ []) :
    (c :: l).dropLast = c :: l.dropLast := by
  cases l with
  | nil => exact absurd rfl h
  | cons x xs => rfl

theorem take_pred_append (A rest : Str) :
    (A ++ rest).take (A.length - 1) = A.dropLast := by
  rw [List.dropLast_eq_take]
  exact List.take_append_of_le_length (by omega)

theorem splitFirst_decomp (p : Str) (hp : p ≠ []) :
    ∀ pre rest, (¬ ∃ a b, (pre ++ p).dropLast = a ++ p ++ b) →
      splitFirst p (pre ++ p ++ rest) = some (pre, rest) := by
  intro pre
  induction pre with
  | nil =>
    intro rest _
    obtain ⟨c, p', rfl⟩ := List.exists_cons_of_ne_nil hp
    have hpre : (c :: p').isPrefixOf (c :: (p' ++ rest)) := by
      rw [ List.isPrefixOf_iff_prefix]
      rw [show c :: (p' ++ rest) = (c :: p') ++ rest by simp]
      exact List.prefix_append _ _
    rw [show ([] : Str) ++ (c :: p') ++ rest = c :: (p' ++ rest) by simp]
    simp only [splitFirst, if_pos hpre]
    rw [show c :: (p' ++ rest) = (c :: p') ++ rest by simp, List.drop_left]
  | cons c pre' ih =>
    intro rest h
    have hnotpre : ¬ p.isPrefixOf (c :: (pre' ++ p ++ rest)) := by
      intro hcontra
      rw [ List.isPrefixOf_iff_prefix] at hcontra
      obtain ⟨t, ht⟩ := hcontra
      apply h
      have hS : c :: (pre' ++ p ++ rest) = ((c :: pre') ++ p) ++ rest := by simp
      rw [hS] at ht
      have hm : p.length ≤ ((c :: pre') ++ p).length - 1 := by
        simp only [List.length_append, List.length_cons]; omega
      refine ⟨[], t.take (((c :: pre') ++ p).length - 1 - p.length), ?_⟩
      calc ((c :: pre') ++ p).dropLast
          = (((c :: pre') ++ p) ++ rest).take (((c :: pre') ++ p).length - 1) :=
            (take_pred_append _ _).symm
        _ = (p ++ t).take (((c :: pre') ++ p).length - 1) := by rw [← ht]
        _ = p.take (((c :: pre') ++ p).length - 1)
              ++ t.take (((c :: pre') ++ p).length - 1 - p.length) :=
            List.take_append_eq_append_take
        _ = p ++ t.take (((c :: pre') ++ p).length - 1 - p.length) := by
            rw [List.take_of_length_le hm]
        _ = [] ++ p ++ t.take (((c :: pre') ++ p).length - 1 - p.length) := by
            rw [List.nil_append]
    have hih : splitFirst p (pre' ++ p ++ rest) = some (pre', rest) := by
      apply ih
      rintro ⟨a, b, hab⟩
      apply h
      have hne : pre' ++ p ≠ [] := by
        intro hcon
        exact hp (List.append_eq_nil.mp hcon).2
      refine ⟨c :: a, b, ?_⟩
      rw [show (c :: pre') ++ p = c :: (pre' ++ p) by simp,
        dropLast_cons_of_ne_nil c _ hne, hab]
      simp
    rw [show (c :: pre') ++ p ++ rest = c :: (pre' ++ p ++ rest) by simp]
    simp only [splitFirst, if_neg hnotpre, hih]

-- ### Retry-loop lemmas

theorem geminiRetryLoop_all_fail (backend : Nat → Option Str) :
    ∀ r a, (∀ i, i < r → backend (a + i) = none) →
      geminiRetryLoop backend a r = (geminiExhaustMsg, r, r) := by
  intro r
  induction r with
  | zero => intro a _; rfl
  | succ r ih =>
    intro a h
    have h0 : backend a = none := by
      have := h 0 (by omega); simpa using this
    have hrec := ih (a + 1) (fun i hi => by
      have := h (i + 1) (by omega)
      rwa [show a + (i + 1) = a + 1 + i by omega] at this)
    simp [geminiRetryLoop, h0, hrec]

theorem geminiRetryLoop_success (backend : Nat → Option Str) :
    ∀ k r a s, k < r → (∀ i, i < k → backend (a + i) = none) →
      backend (a + k) = some s →
      geminiRetryLoop backend a r = (pyStrip s, k + 1, k) := by
  intro k
  induction k with
  | zero =>
    intro r a s hr _ hk
    obtain ⟨r', rfl⟩ : ∃ r', r = r' + 1 := ⟨r - 1, by omega⟩
    simp only [Nat.add_zero] at hk
    simp [geminiRetryLoop, hk]
  | succ k ih =>
    intro r a s hr h hk
    obtain ⟨r', rfl⟩ : ∃ r', r = r' + 1 := ⟨r - 1, by omega⟩
    have h0 : backend a = none := by
      have := h 0 (by omega); simpa using this
    have hrec := ih r' (a + 1) s (by omega)
      (fun i hi => by
        have := h (i + 1) (by omega)
        rwa [show a + (i + 1) = a + 1 + i by omega] at this)
      (by rwa [show a + 1 + k = a + (k + 1) by omega])
    simp [geminiRetryLoop, h0, hrec]

theorem openaiRetryLoop_all_rate_limited (backend : Nat → OpenAIOutcome) :
    ∀ r a, (∀ i, i < r → ∃ m, backend (a + i) = .err m ∧ isRateLimited m = true) →
      openaiRetryLoop backend a r = (openaiExhaustMsg, r, r) := by
  intro r
  induction r with
  | zero => intro a _; rfl
  | succ r ih =>
    intro a h
    obtain ⟨m, hm, hrl⟩ := h 0 (by omega)
    rw [Nat.add_zero] at hm
    have hrec := ih (a + 1) (fun i hi => by
      obtain ⟨m', hm', hrl'⟩ := h (i + 1) (by omega)
      rw [show a + (i + 1) = a + 1 + i by omega] at hm'
      exact ⟨m', hm', hrl'⟩)
    simp [openaiRetryLoop, hm, hrl, hrec]

theorem openaiRetryLoop_fatal (backend : Nat → OpenAIOutcome) :
    ∀ k r a msg, k < r →
      (∀ i, i < k → ∃ m, backend (a + i) = .err m ∧ isRateLimited m = true) →
      backend (a + k) = .err msg → isRateLimited msg = false →
      openaiRetryLoop backend a r = ("Error".toList, k + 1, k) := by
  intro k
  induction k with
  | zero =>
    intro r a msg hr _ hk hfatal
    obtain ⟨r', rfl⟩ : ∃ r', r = r' + 1 := ⟨r - 1, by omega⟩
    rw [Nat.add_zero] at hk
    simp [openaiRetryLoop, hk, hfatal]
  | succ k ih =>
    intro r a msg hr h hk hfatal
    obtain ⟨r', rfl⟩ : ∃ r', r = r' + 1 := ⟨r - 1, by omega⟩
    obtain ⟨m, hm, hrl⟩ := h 0 (by omega)
    rw [Nat.add_zero] at hm
    have hrec := ih r' (a + 1) msg (by omega)
      (fun i hi => by
        obtain ⟨m', hm', hrl'⟩ := h (i + 1) (by omega)
        rw [show a + (i + 1) = a + 1 + i by omega] at hm'
        exact ⟨m', hm', hrl'⟩)
      (by rwa [show a + 1 + k = a + (k + 1) by omega]) hfatal
    simp [openaiRetryLoop, hm, hrl, hrec]

theorem openaiRetryLoop_success (backend : Nat → OpenAIOutcome) :
    ∀ k r a s, k < r →
      (∀ i, i < k → ∃ m, backend (a + i) = .err m ∧ isRateLimited m = true) →
      backend (a + k) = .ok s →
      openaiRetryLoop backend a r = (pyStrip s, k + 1, k) := by
  intro k
  induction k with
  | zero =>
    intro r a s hr _ hk
    obtain ⟨r', rfl⟩ : ∃ r', r = r' + 1 := ⟨r - 1, by omega⟩
    rw [Nat.add_zero] at hk
    simp [openaiRetryLoop, hk]
  | succ k ih =>
    intro r a s hr h hk
    obtain ⟨r', rfl⟩ : ∃ r', r = r' + 1 := ⟨r - 1, by omega⟩
    obtain ⟨m, hm, hrl⟩ := h 0 (by omega)
    rw [Nat.add_zero] at hm
    have hrec := ih r' (a + 1) s (by omega)
      (fun i hi => by
        obtain ⟨m', hm', hrl'⟩ := h (i + 1) (by omega)
        rw [show a + (i + 1) = a + 1 + i by omega] at hm'
        exact ⟨m', hm', hrl'⟩)
      (by rwa [show a + 1 + k = a + (k + 1) by omega])
    simp [openaiRetryLoop, hm, hrl, hrec]

-- ### Claim C6

/-- C6, corrected.  Retry policies as claimed: Backend A (Gemini) sleeps
the fixed 60-second backoff and retries on every failure, up to 5
attempts; Backend B (OpenAI) retries only rate-limit failures, up to 3
attempts with the same backoff, and returns immediately (`"Error"`, one
call, no sleep) on any other failure.  Amended part: on exhaustion
Backend A returns the literal message `"Error: Failed after 5
attempts."`, which parses downstream into one field holding that
message — not into field values all set to the sentinel `"Error"`.
Results are `(text, calls made, sleeps taken)`. -/
theorem C6_retry_policy :
    (∀ (tokens limit : Int) (backend : Nat → Option Str),
        ¬ min (limit - tokens - 100) 500000 < 1000 →
        (∀ i, i < 5 → backend i = none) →
        extract_gemini_output tokens limit backend = (geminiExhaustMsg, 5, 5))
  ∧ (∀ (tokens limit : Int) (backend : Nat → Option Str) (k : Nat) (s : Str),
        ¬ min (limit - tokens - 100) 500000 < 1000 →
        k < 5 → (∀ i, i < k → backend i = none) → backend k = some s →
        extract_gemini_output tokens limit backend = (pyStrip s, k + 1, k))
  ∧ (∀ (backend : Nat → OpenAIOutcome) (k : Nat) (msg : Str),
        k < 3 →
        (∀ i, i < k → ∃ m, backend i = .err m ∧ isRateLimited m = true) →
        backend k = .err msg → isRateLimited msg = false →
        extract_openai_output backend = ("Error".toList, k + 1, k))
  ∧ (∀ backend : Nat → OpenAIOutcome,
        (∀ i, i < 3 → ∃ m, backend i = .err m ∧ isRateLimited m = true) →
        extract_openai_output backend = (openaiExhaustMsg, 3, 3))
  ∧ (∀ (backend : Nat → OpenAIOutcome) (k : Nat) (s : Str),
        k < 3 →
        (∀ i, i < k → ∃ m, backend i = .err m ∧ isRateLimited m = true) →
        backend k = .ok s →
        extract_openai_output backend = (pyStrip s, k + 1, k))
  ∧ geminiWaitTime = openaiWaitTime
  ∧ splitChar '\t' (process_gemini_output geminiExhaustMsg).1 = [geminiExhaustMsg] := by
  refine ⟨?_, ?_, ?_, ?_, ?_, rfl, by decide⟩
  · intro tokens limit backend hbudget hfail
    unfold extract_gemini_output
    rw [if_neg hbudget]
    exact geminiRetryLoop_all_fail backend 5 0 (fun i hi => by simpa using hfail i hi)
  · intro tokens limit backend k s hbudget hk hfail hsucc
    unfold extract_gemini_output
    rw [if_neg hbudget]
    exact geminiRetryLoop_success backend k 5 0 s hk
      (fun i hi => by simpa using hfail i hi) (by simpa using hsucc)
  · intro backend k msg hk hpre hfatal hnrl
    exact openaiRetryLoop_fatal backend k 3 0 msg hk
      (fun i hi => by simpa using hpre i hi) (by simpa using hfatal) hnrl
  · intro backend h
    exact openaiRetryLoop_all_rate_limited backend 3 0 (fun i hi => by simpa using h i hi)
  · intro backend k s hk hpre hsucc
    exact openaiRetryLoop_success backend k 3 0 s hk
      (fun i hi => by simpa using hpre i hi) (by simpa using hsucc)

/-- C6 counterexample: with every Gemini attempt failing, the exhausted
result does not split into field values all equal to `"Error"` — it is
the single field `"Error: Failed after 5 attempts."`. -/
theorem C6_counterexample :
    ¬ (∀ f ∈ splitChar '\t'
        (process_gemini_output (extract_gemini_output 100 10000 (fun _ => none)).1).1,
        f = "Error".toList) := by
  decide

/-- C6 witness: the amended theorem applied at concrete backends. -/
theorem C6_retry_policy_witness :
    extract_gemini_output 100 10000 (fun _ => none) = (geminiExhaustMsg, 5, 5)
    ∧ extract_openai_output (fun _ => .err ("boom".toList)) = ("Error".toList, 1, 0) := by
  constructor
  · exact C6_retry_policy.1 100 10000 _ (by decide) (fun i _ => rfl)
  · exact C6_retry_policy.2.2.1 _ 0 ("boom".toList) (by decide)
      (fun i hi => absurd hi (by omega)) rfl (by decide)

-- ### Claim C7

/-- C7, confirmed: when the configured ceiling minus the estimated
prompt tokens minus the 100-token margin falls below 1000, Gemini
extraction fails immediately with the budget message, making no backend
call and no sleep. -/
theorem C7_budget_guard (tokens limit : Int) (backend : Nat → Option Str)
    (h : limit - tokens - 100 < 1000) :
    extract_gemini_output tokens limit backend = ("Error: Input too large.".toList, 0, 0) := by
  unfold extract_gemini_output
  rw [if_pos (lt_of_le_of_lt (min_le_left _ _) h)]

/-- C7 witness: a prompt estimated at 1999500 tokens against the default
2000000-token ceiling is rejected without a call even though the backend
would answer. -/
theorem C7_budget_guard_witness :
    extract_gemini_output 1999500 2000000 (fun _ => some ("hi".toList))
      = ("Error: Input too large.".toList, 0, 0) :=
  C7_budget_guard 1999500 2000000 _ (by decide)

-- ### Claim C5

/-- C5, corrected: the all-`true` fallback, of the same length as the
first input list, is produced exactly when `ast.literal_eval` raises on
the comparison response; any successfully parsed literal — including a
boolean list of the wrong length, or a value that is not a boolean list
at all — is returned verbatim, with no type or length check. -/
theorem C5_reconcile_fallback :
    (∀ output_1 : List Str, ∃ items : List PyLit,
        compare_llm_output none output_1 = PyLit.pyList items
        ∧ items.length = output_1.length
        ∧ ∀ x ∈ items, x = PyLit.pyBool true)
  ∧ (∀ (v : PyLit) (output_1 : List Str),
        compare_llm_output (some v) output_1 = v) := by
  constructor
  · intro output_1
    exact ⟨List.replicate output_1.length (PyLit.pyBool true), rfl,
      List.length_replicate _ _, fun x hx => List.eq_of_mem_replicate hx⟩
  · intro v output_1
    rfl

/-- C5 counterexample: `ast.literal_eval` succeeds on the response
`"[False]"`, a boolean list that is not of the expected length 4, and
the comparison returns it verbatim instead of four `true`s. -/
theorem C5_counterexample :
    compare_llm_output (some (PyLit.pyList [PyLit.pyBool false]))
        ["45".toList, "NA".toList, "0".toList, "na".toList]
      ≠ PyLit.pyList (List.replicate 4 (PyLit.pyBool true)) := by
  intro h
  have h2 : [PyLit.pyBool false] = List.replicate 4 (PyLit.pyBool true) := by
    injection h
  simpa using congrArg List.length h2

-- ### Claim C4

/-- C4, corrected: Backend B's (GPT) field list always has length
exactly 4 (padded with `"NA"`, then truncated), but Backend A's
per-prompt fields are the bare tab-split of the answers segment — never
padded or truncated per prompt; only the concatenated vector is padded
with `"NA"` to at least 13, and the concatenation is preserved as a
prefix (no truncation ever). -/
theorem C4_field_lengths :
    (∀ s : Str, (gpt_fields_of s).length = 4)
  ∧ (∀ o1 o2 : Option Str, 13 ≤ (all_fields_of o1 o2).length)
  ∧ (∀ o1 o2 : Option Str,
      (splitChar '\t' (geminiAnswersFor 0 o1) ++ splitChar '\t' (geminiAnswersFor 1 o2))
        <+: all_fields_of o1 o2) := by
  refine ⟨?_, ?_, ?_⟩
  · intro s
    unfold gpt_fields_of
    by_cases h : pyStrip s = []
    · rw [if_pos h, List.length_replicate]
    · rw [if_neg h]
      simp only [List.length_take, List.length_append, List.length_replicate]
      omega
  · intro o1 o2
    unfold all_fields_of padNA
    simp only [List.length_append, List.length_replicate]
    omega
  · intro o1 o2
    exact List.prefix_append _ _

/-- C4 counterexample: a Gemini response carrying seven tab-separated
values under the first prompt (expected field count 6) yields seven
fields, not six. -/
theorem C4_counterexample :
    (geminiPromptFields ("a\tb\tc\td\te\tf\tg".toList)).length
      ≠ geminiExpectedFieldCount 0 := by
  decide

-- ### Lemmas for evidence-line cleanup

theorem dropWhile_head_false (p : Char → Bool) :
    ∀ (l : Str) c cs, List.dropWhile p l = c :: cs → p c = false := by
  intro l
  induction l with
  | nil => intro c cs h; simp at h
  | cons x xs ih =>
    intro c cs h
    by_cases hx : p x
    · rw [List.dropWhile_cons, if_pos hx] at h
      exact ih c cs h
    · rw [List.dropWhile_cons, if_neg hx] at h
      obtain ⟨rfl, -⟩ := List.cons.inj h
      simpa using hx

theorem dropWhile_dropWhile (p : Char → Bool) (l : Str) :
    List.dropWhile p (List.dropWhile p l) = List.dropWhile p l := by
  cases h : List.dropWhile p l with
  | nil => rfl
  | cons c cs =>
    have hc := dropWhile_head_false p l c cs h
    rw [List.dropWhile_cons, if_neg (by simp [hc])]

theorem trimRight_prefix_self (s : Str) : trimRight s <+: s := by
  have h := List.reverse_prefix.mpr (List.dropWhile_suffix (l := s.reverse) isPyWs)
  rwa [List.reverse_reverse] at h

theorem trimLeft_trimLeft (s : Str) : trimLeft (trimLeft s) = trimLeft s :=
  dropWhile_dropWhile isPyWs s

theorem trimRight_trimRight (s : Str) : trimRight (trimRight s) = trimRight s := by
  unfold trimRight
  rw [List.reverse_reverse, dropWhile_dropWhile]

theorem trimLeft_trimRight_trimLeft (s : Str) :
    trimLeft (trimRight (trimLeft s)) = trimRight (trimLeft s) := by
  cases ht : trimRight (trimLeft s) with
  | nil => rfl
  | cons c cs =>
    obtain ⟨u, hu⟩ := ht ▸ trimRight_prefix_self (trimLeft s)
    have hc : isPyWs c = false := by
      apply dropWhile_head_false isPyWs s c (cs ++ u)
      unfold trimLeft at hu
      rw [← hu]
      simp
    unfold trimLeft
    rw [List.dropWhile_cons, if_neg (by simp [hc])]

theorem pyStrip_idem (s : Str) : pyStrip (pyStrip s) = pyStrip s := by
  unfold pyStrip
  rw [trimLeft_trimRight_trimLeft, trimRight_trimRight]

theorem pyStrip_reverse_head_not_ws (s : Str) (c : Char) (cs : Str)
    (h : (pyStrip s).reverse = c :: cs) : isPyWs c = false := by
  unfold pyStrip trimRight at h
  rw [List.reverse_reverse] at h
  exact dropWhile_head_false isPyWs _ c cs h

theorem stripEnum_eq_self (t : Str) (h : startsEnum t = false) : stripEnum t = t := by
  unfold startsEnum at h
  unfold stripEnum
  by_cases h1 : (List.takeWhile Char.isDigit (List.dropWhile isPyWs t)).isEmpty
  · rw [if_pos h1]
  · rw [if_neg h1]
    simp only [h1, Bool.not_false, Bool.true_and] at h
    cases hAD : List.dropWhile Char.isDigit (List.dropWhile isPyWs t) with
    | nil => rfl
    | cons a r =>
      rw [hAD] at h
      have ha : ¬ a = '.' := by simpa using h
      simp only []
      rw [if_neg ha]

theorem dropLeadQuote_eq_self (t : Str) (h : headQuote t = false) :
    dropLeadQuote t = t := by
  cases t with
  | nil => rfl
  | cons c cs =>
    have hc : isQuoteChar c = false := by
      have h2 : isQuoteChar c = headQuote (c :: cs) := rfl
      rw [h2, h]
    show (if isQuoteChar c then cs else c :: cs) = c :: cs
    rw [if_neg (by simp [hc])]

theorem dropQuoteRev_eq_self (t : Str)
    (hq : ∀ c cs, t = c :: cs → isQuoteChar c = false)
    (hw : ∀ c cs, t = c :: cs → isPyWs c = false) :
    dropQuoteRev t = t := by
  cases t with
  | nil => rfl
  | cons c cs =>
    have h1 : isQuoteChar c = false := hq c cs rfl
    have h2 : ¬ c = '\n' := by
      intro hc
      have := hw c cs rfl
      rw [hc] at this
      simp [isPyWs] at this
    simp only [dropQuoteRev]
    rw [if_neg (by simp [h1]), if_neg h2]

theorem dropTrailQuote_eq_self (t : Str) (hq : endsQuote t = false)
    (hw : ∀ c cs, t.reverse = c :: cs → isPyWs c = false) :
    dropTrailQuote t = t := by
  unfold dropTrailQuote
  rw [dropQuoteRev_eq_self t.reverse
    (fun c cs hcs => by
      unfold endsQuote at hq
      rw [hcs] at hq
      simpa using hq)
    (fun c cs hcs => hw c cs hcs)]
  exact List.reverse_reverse t

theorem mem_dropLeadQuote {c : Char} {l : Str} (h : c ∈ dropLeadQuote l) : c ∈ l := by
  cases l with
  | nil => exact h
  | cons x xs =>
    have h2 : c ∈ (if isQuoteChar x then xs else x :: xs) := h
    by_cases hx : isQuoteChar x
    · rw [if_pos hx] at h2
      exact List.mem_cons_of_mem x h2
    · rwa [if_neg hx] at h2

theorem mem_dropQuoteRev {c : Char} {l : Str} (h : c ∈ dropQuoteRev l) : c ∈ l := by
  cases l with
  | nil => exact h
  | cons x xs =>
    simp only [dropQuoteRev] at h
    by_cases hx : isQuoteChar x
    · rw [if_pos hx] at h
      exact List.mem_cons_of_mem x h
    · rw [if_neg hx] at h
      by_cases hnl : x = '\n'
      · rw [if_pos hnl] at h
        cases xs with
        | nil => exact h
        | cons q rest2 =>
          simp only [] at h
          by_cases hq : isQuoteChar q
          · have h3 : c ∈ '\n' :: rest2 := by
              rw [if_pos hq] at h
              exact h
            cases h3 with
            | head => rw [hnl]; exact List.mem_cons_self _ _
            | tail _ h4 => exact List.mem_cons_of_mem x (List.mem_cons_of_mem q h4)
          · rw [if_neg hq] at h
            exact h
      · rw [if_neg hnl] at h
        exact h

theorem mem_dropTrailQuote {c : Char} {l : Str} (h : c ∈ dropTrailQuote l) : c ∈ l := by
  unfold dropTrailQuote at h
  rw [List.mem_reverse] at h
  rw [← List.mem_reverse]
  exact mem_dropQuoteRev h

theorem mem_pyStrip {c : Char} {l : Str} (h : c ∈ pyStrip l) : c ∈ l := by
  unfold pyStrip at h
  have h1 : c ∈ trimLeft l := (trimRight_prefix_self (trimLeft l)).subset h
  exact (List.dropWhile_suffix isPyWs).subset h1

theorem replaceNbsp_no_nbsp (s : Str) : Char.ofNat 160 ∉ replaceNbsp s := by
  intro h
  unfold replaceNbsp at h
  rw [List.mem_map] at h
  obtain ⟨a, -, ha⟩ := h
  by_cases h2 : a == Char.ofNat 160
  · rw [if_pos h2] at ha
    exact absurd ha (by decide)
  · rw [if_neg h2] at ha
    rw [ha] at h2
    simp at h2

theorem replaceNbsp_eq_self (s : Str) (h : Char.ofNat 160 ∉ s) : replaceNbsp s = s := by
  unfold replaceNbsp
  rw [show s.map (fun c => if c == Char.ofNat 160 then ' ' else c) = s.map id from ?_,
    List.map_id]
  apply List.map_congr_left
  intro a ha
  rw [if_neg]
  · rfl
  · intro hc
    rw [show a = Char.ofNat 160 by simpa using hc] at ha
    exact h ha

theorem clean_no_nbsp (s : Str) : Char.ofNat 160 ∉ clean_evidence_line s := by
  intro h
  unfold clean_evidence_line at h
  exact replaceNbsp_no_nbsp _ (mem_dropLeadQuote (mem_dropTrailQuote (mem_pyStrip h)))

-- ### Claim C8

/-- C8, corrected: cleanup is idempotent on every line whose cleaned
form no longer begins with an enumeration prefix or a quote character
and no longer ends with a quote character; outside that set a second
cleanup strips again (see the counterexample). -/
theorem C8_clean_idempotent_on_stable (s : Str)
    (h1 : startsEnum (clean_evidence_line s) = false)
    (h2 : headQuote (clean_evidence_line s) = false)
    (h3 : endsQuote (clean_evidence_line s) = false) :
    clean_evidence_line (clean_evidence_line s) = clean_evidence_line s := by
  have key : ∀ t : Str, startsEnum t = false → headQuote t = false →
      endsQuote t = false → pyStrip t = t → Char.ofNat 160 ∉ t →
      (∀ c cs, t.reverse = c :: cs → isPyWs c = false) →
      clean_evidence_line t = t := by
    intro t k1 k2 k3 k4 k5 k6
    unfold clean_evidence_line
    rw [stripEnum_eq_self t k1, replaceNbsp_eq_self t k5, dropLeadQuote_eq_self t k2,
      dropTrailQuote_eq_self t k3 k6, k4]
  apply key _ h1 h2 h3
  · show pyStrip (clean_evidence_line s) = clean_evidence_line s
    unfold clean_evidence_line
    exact pyStrip_idem _
  · exact clean_no_nbsp s
  · intro c cs hc
    unfold clean_evidence_line at hc
    exact pyStrip_reverse_head_not_ws _ c cs hc

/-- C8 counterexample: `"1. 2. x"` cleans to `"2. x"`, which cleans
again to `"x"` — cleanup applied to an already-cleaned line changes it. -/
theorem C8_counterexample :
    clean_evidence_line (clean_evidence_line ("1. 2. x".toList))
      ≠ clean_evidence_line ("1. 2. x".toList) := by
  decide

/-- C8 witness: a typical evidence line is stable under a second cleanup. -/
theorem C8_clean_idempotent_witness :
    clean_evidence_line (clean_evidence_line ("1. \"married in 2005\"".toList))
      = clean_evidence_line ("1. \"married in 2005\"".toList) :=
  C8_clean_idempotent_on_stable ("1. \"married in 2005\"".toList)
    (by decide) (by decide) (by decide)

-- ### Claim C3

/-- C3, corrected.  Marker path: when the response decomposes as
`pre ++ ANSWERS ++ mid ++ EVIDENCE ++ post` (with the occurrences shown
being the leftmost ones), the answers are the text strictly between the
markers and the evidence the text strictly after the second marker, each
trimmed of surrounding whitespace.  When both markers occur but no
`EVIDENCE` follows the first `ANSWERS`, the handler yields the fixed
six-field `"Error"` answers (regardless of the prompt's expected field
count) and `"Error processing output"`.  Without both markers, the
response splits on the first blank line, the evidence defaulting to
`"No supporting text returned."`; parsing is a total function. -/
theorem C3_marker_and_fallback_parsing :
    (∀ pre mid post : Str,
        (¬ ∃ a b, (pre ++ answersMarker).dropLast = a ++ answersMarker ++ b) →
        (¬ ∃ a b, (mid ++ evidenceMarker).dropLast = a ++ evidenceMarker ++ b) →
        process_gemini_output (pre ++ answersMarker ++ mid ++ evidenceMarker ++ post)
          = (pyStrip mid, pyStrip post))
  ∧ (∀ u v rest : Str,
        (¬ ∃ a b, ((u ++ evidenceMarker ++ v) ++ answersMarker).dropLast
            = a ++ answersMarker ++ b) →
        (¬ ∃ a b, rest = a ++ evidenceMarker ++ b) →
        process_gemini_output ((u ++ evidenceMarker ++ v) ++ answersMarker ++ rest)
          = (errorAnswers, errorEvidence))
  ∧ (∀ a b : Str,
        ((¬ ∃ x y, a ++ blankLine ++ b = x ++ answersMarker ++ y)
          ∨ (¬ ∃ x y, a ++ blankLine ++ b = x ++ evidenceMarker ++ y)) →
        (¬ ∃ x y, (a ++ blankLine).dropLast = x ++ blankLine ++ y) →
        process_gemini_output (a ++ blankLine ++ b) = (pyStrip a, pyStrip b))
  ∧ (∀ out : Str,
        ((¬ ∃ x y, out = x ++ answersMarker ++ y)
          ∨ (¬ ∃ x y, out = x ++ evidenceMarker ++ y)) →
        (¬ ∃ x y, out = x ++ blankLine ++ y) →
        process_gemini_output out = (pyStrip out, noSupportingText)) := by
  have hm1 : answersMarker ≠ [] := by decide
  have hm2 : evidenceMarker ≠ [] := by decide
  have hbl : blankLine ≠ [] := by decide
  refine ⟨?_, ?_, ?_, ?_⟩
  · intro pre mid post hp1 hp2
    have hassoc : pre ++ answersMarker ++ mid ++ evidenceMarker ++ post
        = pre ++ answersMarker ++ (mid ++ evidenceMarker ++ post) := by
      simp [List.append_assoc]
    rw [hassoc]
    have hsplit1 : splitFirst answersMarker
        (pre ++ answersMarker ++ (mid ++ evidenceMarker ++ post))
        = some (pre, mid ++ evidenceMarker ++ post) :=
      splitFirst_decomp answersMarker hm1 pre _ hp1
    have hsplit2 : splitFirst evidenceMarker (mid ++ evidenceMarker ++ post)
        = some (mid, post) :=
      splitFirst_decomp evidenceMarker hm2 mid post hp2
    have hocc1 : occursB answersMarker
        (pre ++ answersMarker ++ (mid ++ evidenceMarker ++ post)) = true := by
      unfold occursB
      rw [hsplit1]
      rfl
    have hocc2 : occursB evidenceMarker
        (pre ++ answersMarker ++ (mid ++ evidenceMarker ++ post)) = true := by
      have hassoc2 : pre ++ answersMarker ++ (mid ++ evidenceMarker ++ post)
          = (pre ++ answersMarker ++ mid) ++ evidenceMarker ++ post := by
        simp [List.append_assoc]
      rw [hassoc2]
      unfold occursB
      have := splitFirst_isSome evidenceMarker hm2 (pre ++ answersMarker ++ mid) post
      exact this
    unfold process_gemini_output
    rw [hocc1, hocc2]
    simp only [Bool.and_self, if_true]
    rw [hsplit1]
    simp only []
    rw [hsplit2]
  · intro u v rest hp1 hp2
    have hsplit1 : splitFirst answersMarker
        ((u ++ evidenceMarker ++ v) ++ answersMarker ++ rest)
        = some (u ++ evidenceMarker ++ v, rest) :=
      splitFirst_decomp answersMarker hm1 (u ++ evidenceMarker ++ v) rest hp1
    have hnone : splitFirst evidenceMarker rest = none :=
      splitFirst_eq_none_of_no_decomp evidenceMarker rest hp2
    have hocc1 : occursB answersMarker
        ((u ++ evidenceMarker ++ v) ++ answersMarker ++ rest) = true := by
      unfold occursB
      rw [hsplit1]
      rfl
    have hocc2 : occursB evidenceMarker
        ((u ++ evidenceMarker ++ v) ++ answersMarker ++ rest) = true := by
      have hassoc : (u ++ evidenceMarker ++ v) ++ answersMarker ++ rest
          = u ++ evidenceMarker ++ (v ++ answersMarker ++ rest) := by
        simp [List.append_assoc]
      rw [hassoc]
      unfold occursB
      exact splitFirst_isSome evidenceMarker hm2 u (v ++ answersMarker ++ rest)
    unfold process_gemini_output
    rw [hocc1, hocc2]
    simp only [Bool.and_self, if_true]
    rw [hsplit1]
    simp only []
    rw [hnone]
  · intro a b hdisj hfirst
    have hcond : (occursB answersMarker (a ++ blankLine ++ b)
        && occursB evidenceMarker (a ++ blankLine ++ b)) = false := by
      rcases hdisj with hno | hno
      · rw [occursB_false_of_no_decomp _ _ hno, Bool.false_and]
      · rw [occursB_false_of_no_decomp _ _ hno, Bool.and_false]
    have hsplit : splitFirst blankLine (a ++ blankLine ++ b) = some (a, b) :=
      splitFirst_decomp blankLine hbl a b hfirst
    unfold process_gemini_output
    rw [hcond]
    simp only [Bool.false_eq_true, if_false]
    rw [hsplit]
  · intro out hdisj hnobl
    have hcond : (occursB answersMarker out && occursB evidenceMarker out) = false := by
      rcases hdisj with hno | hno
      · rw [occursB_false_of_no_decomp _ _ hno, Bool.false_and]
      · rw [occursB_false_of_no_decomp _ _ hno, Bool.and_false]
    have hnone : splitFirst blankLine out = none :=
      splitFirst_eq_none_of_no_decomp blankLine out hnobl
    unfold process_gemini_output
    rw [hcond]
    simp only [Bool.false_eq_true, if_false]
    rw [hnone]

/-- C3 counterexample: both markers are present but out of order; the
handler fires and yields six `"Error"` fields, not the second prompt's
expected field count of 7. -/
theorem C3_counterexample :
    (splitChar '\t' (process_gemini_output
        ("|||EVIDENCE|||missing|||ANSWERS|||rest".toList)).1).length
      ≠ geminiExpectedFieldCount 1 := by
  decide

/-- C3 witness: the spec's sample response under the marker path. -/
theorem C3_marker_parsing_witness :
    process_gemini_output
        (([] : Str) ++ answersMarker
          ++ "\n10 years\t9 years\t2\t$3000\t$4000\tDual\n".toList
          ++ evidenceMarker ++ "\n1. \"married in 2005\"\n".toList)
      = ("10 years\t9 years\t2\t$3000\t$4000\tDual".toList,
         "1. \"married in 2005\"".toList) := by
  have h := C3_marker_and_fallback_parsing.1 []
    ("\n10 years\t9 years\t2\t$3000\t$4000\tDual\n".toList)
    ("\n1. \"married in 2005\"\n".toList)
    (no_decomp_of_occursB_false _ _ (by decide))
    (no_decomp_of_occursB_false _ _ (by decide))
  rw [h]
  decide

-- ### Lemmas about rows, copying and the merge fold

theorem columnMap_ne_one (n col : Nat) (h : columnMap n = some col) : col ≠ 1 := by
  rcases n with _ | _ | _ | _ | n
  · rw [show columnMap 0 = some 9 from rfl] at h
    injection h with h
    omega
  · rw [show columnMap 1 = some 12 from rfl] at h
    injection h with h
    omega
  · rw [show columnMap 2 = some 13 from rfl] at h
    injection h with h
    omega
  · rw [show columnMap 3 = some 14 from rfl] at h
    injection h with h
    omega
  · rw [show columnMap (n + 4) = none from rfl] at h
    exact absurd h (by simp)

theorem updateCell_get_ne (r : Row) (i j : Nat) (f : Cell → Cell) (h : i ≠ j) :
    (updateCell r i f)[j]? = r[j]? := by
  unfold updateCell
  cases hc : r[i]? with
  | none => rfl
  | some c => exact List.getElem?_set_ne h

theorem foldl_get_eq {β : Type} (g : Row → β → Row) (j : Nat) :
    ∀ (l : List β) (row : Row), (∀ row x, x ∈ l → (g row x)[j]? = row[j]?) →
      (l.foldl g row)[j]? = row[j]? := by
  intro l
  induction l with
  | nil => intro row _; rfl
  | cons x xs ih =>
    intro row h
    rw [List.foldl_cons,
      ih (g row x) (fun r y hy => h r y (List.mem_cons_of_mem x hy))]
    exact h row x (List.mem_cons_self x xs)

theorem hyperlinkPass_get1 (c : Case) (r : CaseResults) (fields : List Str) (base : Row) :
    (hyperlinkPass c r fields base)[1]? = base[1]? := by
  unfold hyperlinkPass
  apply foldl_get_eq
  intro row i _
  cases hev : r.all_evidence[i]? with
  | none => rfl
  | some line =>
    simp only [hev]
    by_cases hl : noLinkEvidence line
    · rw [if_pos hl]
    · rw [if_neg hl]
      exact updateCell_get_ne _ _ _ _ (by omega)

theorem mismatchFillPass_get1 (r : CaseResults) (row : Row) :
    (mismatchFillPass r row)[1]? = row[1]? := by
  unfold mismatchFillPass
  apply foldl_get_eq
  intro row2 col hcol
  rw [List.mem_filterMap] at hcol
  obtain ⟨im, -, him⟩ := hcol
  have hsome : columnMap im.1 = some col := by
    by_cases h2 : im.2
    · rwa [if_pos h2] at him
    · rw [if_neg h2] at him
      exact absurd him (by simp)
  exact updateCell_get_ne _ _ _ _ (fun hc => columnMap_ne_one im.1 col hsome (hc ▸ rfl))

theorem mismatchCommentPass_get1 (r : CaseResults) (row : Row) :
    (mismatchCommentPass r row)[1]? = row[1]? := by
  unfold mismatchCommentPass
  apply foldl_get_eq
  intro row2 im _
  by_cases h2 : im.2
  · rw [if_pos h2]
    cases hcm : columnMap im.1 with
    | none => rfl
    | some col =>
      simp only []
      exact updateCell_get_ne _ _ _ _
        (fun hc => columnMap_ne_one im.1 col hcm (hc ▸ rfl))
  · rw [if_neg h2]

theorem buildRow_get1 (c : Case) (res : Option CaseResults) :
    (buildRow c res)[1]? = some (valueCell c.unique_title) := by
  unfold buildRow
  rw [mismatchCommentPass_get1, mismatchFillPass_get1, hyperlinkPass_get1]
  rfl

theorem copyCell_value (c : Cell) : (copyCell c).value = c.value := by
  obtain ⟨v, fm, fi, sn, hl, cm⟩ := c
  simp only [copyCell]
  cases hl <;> rfl

theorem copyCell_hyperlink (c : Cell) : (copyCell c).hyperlink = c.hyperlink := by
  obtain ⟨v, fm, fi, sn, hl, cm⟩ := c
  simp only [copyCell]
  cases hl <;> rfl

theorem copyCell_comment (c : Cell) : (copyCell c).comment = c.comment := by
  obtain ⟨v, fm, fi, sn, hl, cm⟩ := c
  simp only [copyCell]
  cases hl <;> rfl

theorem copyCell_eq_self (c : Cell) (h : cellWF c) : copyCell c = c := by
  obtain ⟨v, fm, fi, sn, hl, cm⟩ := c
  cases hl with
  | none =>
    have h2 : sn = none := by simpa [cellWF] using h
    have hfm : (if (fm.isSome || fi.isSome) then fm else none) = fm := by
      cases fm
      · cases fi <;> simp
      · simp
    have hfi : (if (fm.isSome || fi.isSome) then fi else none) = fi := by
      cases fi
      · cases fm <;> simp
      · simp
    simp only [copyCell]
    rw [hfm, hfi, h2]
  | some u =>
    have h2 : sn = some "Hyperlink".toList ∧ fm = some hyperlinkStyleFmt ∧ fi = none := by
      simpa [cellWF] using h
    simp only [copyCell]
    rw [h2.1, h2.2.1, h2.2.2]

theorem copyRow_eq_self (r : Row) (h : rowWF r) : copyRow r = r := by
  obtain ⟨hlen, hcells⟩ := h
  unfold copyRow
  rw [hlen, Nat.sub_self, List.replicate_zero, List.append_nil,
    List.take_of_length_le (le_of_eq hlen),
    show List.map copyCell r = List.map id r from
      List.map_congr_left (fun c hc => copyCell_eq_self c (hcells c hc)),
    List.map_id]

theorem copyRow_content (r : Row) (h : r.length = csvHeaderLength) :
    (copyRow r).map (fun c => (c.value, c.hyperlink, c.comment))
      = r.map (fun c => (c.value, c.hyperlink, c.comment)) := by
  unfold copyRow
  rw [h, Nat.sub_self, List.replicate_zero, List.append_nil,
    List.take_of_length_le (le_of_eq h), List.map_map]
  apply List.map_congr_left
  intro c _
  show ((copyCell c).value, (copyCell c).hyperlink, (copyCell c).comment)
      = (c.value, c.hyperlink, c.comment)
  rw [copyCell_value, copyCell_hyperlink, copyCell_comment]

theorem cellValue_copyRow (r : Row) :
    (((copyRow r)[1]?).map Cell.value).getD [] = ((r[1]?).map Cell.value).getD [] := by
  have hlt : (1 : Nat) < csvHeaderLength := by decide
  unfold copyRow
  rw [List.getElem?_map, List.getElem?_take, if_pos hlt, List.getElem?_append]
  rcases r with _ | ⟨a, _ | ⟨b, rest⟩⟩
  · rw [if_neg (by simp)]
    rw [List.getElem?_replicate, if_pos (by decide)]
    rfl
  · rw [if_neg (by simp)]
    rw [List.getElem?_replicate, if_pos (by simp [csvHeaderLength])]
    rfl
  · rw [if_pos (by simp only [List.length_cons]; omega)]
    simp only [List.getElem?_cons_succ, List.getElem?_cons_zero]
    show (copyCell b).value = b.value
    exact copyCell_value b

theorem load_existing_cases_append (A B : List Row) :
    load_existing_cases (A ++ B) = load_existing_cases A ++ load_existing_cases B := by
  unfold load_existing_cases
  exact List.filterMap_append A B _

theorem load_existing_cases_map_copyRow (recs : List Row) :
    load_existing_cases (recs.map copyRow) = load_existing_cases recs := by
  unfold load_existing_cases
  rw [List.filterMap_map]
  apply List.filterMap_congr
  intro r _
  show (let v := (((copyRow r)[1]?).map Cell.value).getD [];
    if v = [] then none else some (pyStrip v)) = _
  rw [show (((copyRow r)[1]?).map Cell.value).getD []
    = ((r[1]?).map Cell.value).getD [] from cellValue_copyRow r]

theorem mem_load_existing_cases (recs : List Row) (r : Row) (v : Str)
    (hmem : r ∈ recs) (hv : (r[1]?).map Cell.value = some v) (hne : v ≠ []) :
    pyStrip v ∈ load_existing_cases recs := by
  unfold load_existing_cases
  rw [List.mem_filterMap]
  refine ⟨r, hmem, ?_⟩
  rw [show ((r[1]?).map Cell.value).getD [] = v by rw [hv]; rfl]
  rw [if_neg hne]

theorem foldl_mergeStep (keys : List Str) (llm : Str → Option CaseResults) :
    ∀ (cases : List Case) (acc : MergeResult),
      (cases.foldl (mergeStep keys llm) acc).records
          = acc.records ++ newRowsOf keys llm cases
      ∧ (cases.foldl (mergeStep keys llm) acc).newCount
          = acc.newCount + (newRowsOf keys llm cases).length := by
  intro cases
  induction cases with
  | nil =>
    intro acc
    constructor
    · rw [show newRowsOf keys llm [] = [] from rfl, List.append_nil]
      rfl
    · rfl
  | cons c cs ih =>
    intro acc
    by_cases hm : pyStrip c.unique_title ∈ keys
    · have hstep : mergeStep keys llm acc c = acc := by
        unfold mergeStep
        rw [if_pos hm]
      have hrows : newRowsOf keys llm (c :: cs) = newRowsOf keys llm cs := by
        unfold newRowsOf
        rw [List.filter_cons, if_neg (by simp [hm])]
      rw [List.foldl_cons, hstep, hrows]
      exact ih acc
    · have hstep : mergeStep keys llm acc c
          = ⟨acc.records ++ [buildRow c (llm c.unique_title)], acc.newCount + 1⟩ := by
        unfold mergeStep
        rw [if_neg hm]
      have hrows : newRowsOf keys llm (c :: cs)
          = buildRow c (llm c.unique_title) :: newRowsOf keys llm cs := by
        unfold newRowsOf
        rw [List.filter_cons, if_pos (by simp [hm]), List.map_cons]
      obtain ⟨ih1, ih2⟩ := ih ⟨acc.records ++ [buildRow c (llm c.unique_title)], acc.newCount + 1⟩
      rw [List.foldl_cons, hstep, hrows]
      constructor
      · rw [ih1]
        simp
      · rw [ih2]
        simp only [List.length_cons]
        omega

theorem foldl_mergeStep_all_skip (keys : List Str) (llm : Str → Option CaseResults) :
    ∀ (cases : List Case) (acc : MergeResult),
      (∀ c ∈ cases, pyStrip c.unique_title ∈ keys) →
      cases.foldl (mergeStep keys llm) acc = acc := by
  intro cases
  induction cases with
  | nil => intro acc _; rfl
  | cons c cs ih =>
    intro acc h
    rw [List.foldl_cons, show mergeStep keys llm acc c = acc from by
      unfold mergeStep
      rw [if_pos (h c (List.mem_cons_self c cs))]]
    exact ih acc (fun x hx => h x (List.mem_cons_of_mem c hx))

theorem newRowsOf_nil_keys (llm : Str → Option CaseResults) (cases : List Case) :
    newRowsOf [] llm cases = cases.map fun c => buildRow c (llm c.unique_title) := by
  unfold newRowsOf
  rw [show List.filter (fun c => !decide (pyStrip c.unique_title ∈ ([] : List Str))) cases
      = cases from List.filter_eq_self.mpr (fun a _ => by simp)]

-- ### Claim C1

/-- C1, corrected: for non-empty `newCases` and a non-empty readable
prior, the merged snapshot's records are the rows built from the
deduplicated new cases, in input order, followed by the carry-forward
copies of the prior records in their original relative order.  The
copies preserve every value, hyperlink and comment, but they are not
always the prior records unchanged: on a hyperlinked cell the copy
re-assigns the `Hyperlink` named style after copying the formatting,
replacing the cell's whole style array and discarding, in particular, a
carried mismatch highlight fill.  Rows without such a conflict (each
hyperlinked cell carrying exactly the named style and no fill) are
carried forward unchanged. -/
theorem C1_merge_ordering (cases : List Case) (llm : Str → Option CaseResults)
    (recs : List Row) (hc : cases ≠ []) (hr : recs ≠ []) :
    (process_and_save_cases cases llm (.file recs true true)).records
        = newRowsOf (load_existing_cases recs) llm cases ++ recs.map copyRow
    ∧ (process_and_save_cases cases llm (.file recs true true)).records.take
          (newRowsOf (load_existing_cases recs) llm cases).length
        = newRowsOf (load_existing_cases recs) llm cases
    ∧ (process_and_save_cases cases llm (.file recs true true)).records.drop
          (newRowsOf (load_existing_cases recs) llm cases).length
        = recs.map copyRow
    ∧ (process_and_save_cases cases llm (.file recs true true)).newCount
        = (newRowsOf (load_existing_cases recs) llm cases).length
    ∧ (∀ r ∈ recs, r.length = csvHeaderLength →
        (copyRow r).map (fun c => (c.value, c.hyperlink, c.comment))
          = r.map (fun c => (c.value, c.hyperlink, c.comment)))
    ∧ ((∀ r ∈ recs, rowWF r) →
        (process_and_save_cases cases llm (.file recs true true)).records
          = newRowsOf (load_existing_cases recs) llm cases ++ recs) := by
  obtain ⟨hf1, hf2⟩ :=
    foldl_mergeStep (load_existing_cases recs) llm cases ⟨[], 0⟩
  have hrec : (process_and_save_cases cases llm (.file recs true true)).records
      = newRowsOf (load_existing_cases recs) llm cases ++ recs.map copyRow := by
    show (cases.foldl (mergeStep (existingKeysOf (.file recs true true)) llm)
        ⟨[], 0⟩).records ++ carriedOf (.file recs true true) = _
    rw [show existingKeysOf (.file recs true true) = load_existing_cases recs from rfl,
      hf1, List.nil_append,
      show carriedOf (.file recs true true) = recs.map copyRow from rfl]
  refine ⟨hrec, ?_, ?_, ?_, ?_, ?_⟩
  · rw [hrec, List.take_left]
  · rw [hrec, List.drop_left]
  · show (cases.foldl (mergeStep (existingKeysOf (.file recs true true)) llm)
        ⟨[], 0⟩).newCount = _
    rw [show existingKeysOf (.file recs true true) = load_existing_cases recs from rfl,
      hf2]
    simp
  · intro r hmem hlen
    exact copyRow_content r hlen
  · intro hwf
    rw [hrec, show recs.map copyRow = recs.map id from
      List.map_congr_left (fun r hr2 => copyRow_eq_self r (hwf r hr2)), List.map_id]

/-- C1 counterexample: a prior row whose cell carries both a hyperlink
and the FFC7CE mismatch highlight fill — exactly what this code writes
when a mismatch column also has an evidence link — loses its fill on
carry-forward, because the named-style assignment replaces the copied
style array.  The carried section of the new snapshot therefore differs
from `prior.records`: formatting is not unchanged. -/
theorem C1_counterexample :
    (process_and_save_cases
        [⟨"t".toList, "t c".toList, "u".toList, "c".toList, "d".toList⟩]
        (fun _ => none)
        (.file [(⟨"p".toList, some hyperlinkStyleFmt, some highlightFill,
            some "Hyperlink".toList, some "h".toList, none⟩ : Cell)
          :: List.replicate 16 (valueCell "p".toList)] true true)).records.drop 1
      ≠ [(⟨"p".toList, some hyperlinkStyleFmt, some highlightFill,
            some "Hyperlink".toList, some "h".toList, none⟩ : Cell)
          :: List.replicate 16 (valueCell "p".toList)] := by
  decide

/-- C1 witness: one new case against a one-row conflict-free prior,
which is carried forward unchanged. -/
theorem C1_merge_ordering_witness :
    (process_and_save_cases
        [⟨"t".toList, "t c".toList, "u".toList, "c".toList, "d".toList⟩]
        (fun _ => none)
        (.file [List.replicate 17 (valueCell "p".toList)] true true)).records
      = newRowsOf
          (load_existing_cases [List.replicate 17 (valueCell "p".toList)])
          (fun _ => none)
          [⟨"t".toList, "t c".toList, "u".toList, "c".toList, "d".toList⟩]
        ++ [List.replicate 17 (valueCell "p".toList)] :=
  (C1_merge_ordering
    [⟨"t".toList, "t c".toList, "u".toList, "c".toList, "d".toList⟩]
    (fun _ => none)
    [List.replicate 17 (valueCell "p".toList)]
    (by simp) (by simp)).2.2.2.2.2 (by decide)

-- ### Claim C2

/-- C2, corrected: when every new case's unique key is a non-empty
string and the first run's prior either was absent or, when its key
column was readable, also had its workbook readable (so that keys it
deduplicated against are backed by carried rows), a second run with the
first run's snapshot as prior skips every case — zero new records, no
counter advanced — and contains only the carried-forward records. -/
theorem C2_second_run_no_new (cases : List Case) (llm : Str → Option CaseResults)
    (prior : PriorSource)
    (hne : ∀ c ∈ cases, c.unique_title ≠ [])
    (hpc : priorCarriesKeys prior) :
    (process_and_save_cases cases llm
        (.file (process_and_save_cases cases llm prior).records true true)).newCount = 0
    ∧ (process_and_save_cases cases llm
        (.file (process_and_save_cases cases llm prior).records true true)).records
      = (process_and_save_cases cases llm prior).records.map copyRow
    ∧ newRowsOf (load_existing_cases (process_and_save_cases cases llm prior).records)
        llm cases = [] := by
  have hr1 : (process_and_save_cases cases llm prior).records
      = newRowsOf (existingKeysOf prior) llm cases ++ carriedOf prior := by
    show (cases.foldl (mergeStep (existingKeysOf prior) llm) ⟨[], 0⟩).records
        ++ carriedOf prior = _
    rw [(foldl_mergeStep (existingKeysOf prior) llm cases ⟨[], 0⟩).1, List.nil_append]
  have hmem : ∀ c ∈ cases, pyStrip c.unique_title
      ∈ load_existing_cases (process_and_save_cases cases llm prior).records := by
    intro c hcmem
    rw [hr1, load_existing_cases_append]
    by_cases hskip : pyStrip c.unique_title ∈ existingKeysOf prior
    · -- skipped in run 1: its key came from the prior, whose rows are carried
      apply List.mem_append_right
      match prior, hpc with
      | .noFile, _ => exact absurd hskip (by simp [existingKeysOf])
      | .file recs false bOk, _ => exact absurd hskip (by simp [existingKeysOf])
      | .file recs true true, _ =>
        rw [show carriedOf (.file recs true true) = recs.map copyRow from rfl,
          load_existing_cases_map_copyRow]
        exact hskip
    · -- emitted in run 1: its own row carries the key
      apply List.mem_append_left
      apply mem_load_existing_cases _ (buildRow c (llm c.unique_title))
      · unfold newRowsOf
        rw [List.mem_map]
        exact ⟨c, List.mem_filter.mpr ⟨hcmem, by simp [hskip]⟩, rfl⟩
      · rw [buildRow_get1]
        rfl
      · exact hne c hcmem
  refine ⟨?_, ?_, ?_⟩
  · show (cases.foldl (mergeStep (existingKeysOf
        (.file (process_and_save_cases cases llm prior).records true true)) llm)
        ⟨[], 0⟩).newCount = 0
    rw [foldl_mergeStep_all_skip _ llm cases ⟨[], 0⟩ (by
      rw [show existingKeysOf
          (.file (process_and_save_cases cases llm prior).records true true)
        = load_existing_cases (process_and_save_cases cases llm prior).records from rfl]
      exact hmem)]
  · show (cases.foldl (mergeStep (existingKeysOf
        (.file (process_and_save_cases cases llm prior).records true true)) llm)
        ⟨[], 0⟩).records ++ carriedOf
          (.file (process_and_save_cases cases llm prior).records true true)
      = _
    rw [foldl_mergeStep_all_skip _ llm cases ⟨[], 0⟩ (by
      rw [show existingKeysOf
          (.file (process_and_save_cases cases llm prior).records true true)
        = load_existing_cases (process_and_save_cases cases llm prior).records from rfl]
      exact hmem)]
    rfl
  · unfold newRowsOf
    rw [show (List.filter (fun c => !decide (pyStrip c.unique_title
        ∈ load_existing_cases (process_and_save_cases cases llm prior).records)) cases)
      = [] from List.filter_eq_nil_iff.mpr (fun c hc => by simp [hmem c hc])]
    rfl

/-- C2 counterexample: a case whose unique key is the empty string is
written but never recorded in the next run's key set (the loader skips
falsy cell values), so the second run re-emits it — one new record, not
zero. -/
theorem C2_counterexample :
    (process_and_save_cases [⟨"t".toList, [], "u".toList, "c".toList, "d".toList⟩]
        (fun _ => none)
        (.file (process_and_save_cases
            [⟨"t".toList, [], "u".toList, "c".toList, "d".toList⟩]
            (fun _ => none) .noFile).records true true)).newCount ≠ 0 := by
  decide

/-- C2 witness: a non-empty-keyed case with no prior on the first run. -/
theorem C2_second_run_no_new_witness :
    (process_and_save_cases [⟨"t".toList, "t c".toList, "u".toList, "c".toList, "d".toList⟩]
        (fun _ => none)
        (.file (process_and_save_cases
            [⟨"t".toList, "t c".toList, "u".toList, "c".toList, "d".toList⟩]
            (fun _ => none) .noFile).records true true)).newCount = 0 :=
  (C2_second_run_no_new
    [⟨"t".toList, "t c".toList, "u".toList, "c".toList, "d".toList⟩]
    (fun _ => none) .noFile (by decide) trivial).1

-- ### Claim C10

/-- C10, confirmed: when reading the key column of the prior snapshot
fails, the existing-key set is empty and the run continues, treating
every new case as not yet present — no deduplication against the
unreadable prior (which is carried forward only if its own workbook
load succeeded). -/
theorem C10_unreadable_keys (cases : List Case) (llm : Str → Option CaseResults)
    (recs : List Row) (bOk : Bool) :
    existingKeysOf (.file recs false bOk) = []
    ∧ (process_and_save_cases cases llm (.file recs false bOk)).records
        = (cases.map fun c => buildRow c (llm c.unique_title))
          ++ carriedOf (.file recs false bOk)
    ∧ (process_and_save_cases cases llm (.file recs false bOk)).newCount
        = cases.length := by
  refine ⟨rfl, ?_, ?_⟩
  · show (cases.foldl (mergeStep (existingKeysOf (.file recs false bOk)) llm)
        ⟨[], 0⟩).records ++ carriedOf (.file recs false bOk) = _
    rw [show existingKeysOf (.file recs false bOk) = [] from rfl,
      (foldl_mergeStep [] llm cases ⟨[], 0⟩).1, List.nil_append,
      newRowsOf_nil_keys]
  · show (cases.foldl (mergeStep (existingKeysOf (.file recs false bOk)) llm)
        ⟨[], 0⟩).newCount = _
    rw [show existingKeysOf (.file recs false bOk) = [] from rfl,
      (foldl_mergeStep [] llm cases ⟨[], 0⟩).2, newRowsOf_nil_keys]
    simp

-- ### Lemmas about the latest-file selection

theorem maxMtimeFold_mem : ∀ (rest : List (Str × Int)) (f : Str × Int),
    maxMtimeFold f rest ∈ f :: rest := by
  intro rest
  induction rest with
  | nil => intro f; exact List.mem_cons_self f []
  | cons x xs ih =>
    intro f
    unfold maxMtimeFold at ih ⊢
    rw [List.foldl_cons]
    by_cases hc : f.2 < x.2
    · rw [if_pos hc]
      rcases List.mem_cons.mp (ih x) with h2 | h2
      · rw [h2]; exact List.mem_cons_of_mem f (List.mem_cons_self x xs)
      · exact List.mem_cons_of_mem f (List.mem_cons_of_mem x h2)
    · rw [if_neg hc]
      rcases List.mem_cons.mp (ih f) with h2 | h2
      · rw [h2]; exact List.mem_cons_self f (x :: xs)
      · exact List.mem_cons_of_mem f (List.mem_cons_of_mem x h2)

theorem maxMtimeFold_max : ∀ (rest : List (Str × Int)) (f : Str × Int),
    ∀ g ∈ f :: rest, g.2 ≤ (maxMtimeFold f rest).2 := by
  intro rest
  induction rest with
  | nil =>
    intro f g hg
    rcases List.mem_cons.mp hg with h | h
    · rw [h]; exact le_refl _
    · exact absurd h (by simp)
  | cons x xs ih =>
    intro f g hg
    unfold maxMtimeFold at ih ⊢
    rw [List.foldl_cons]
    have hstep : f.2 ≤ (if f.2 < x.2 then x else f).2 ∧ x.2 ≤ (if f.2 < x.2 then x else f).2 := by
      by_cases hc : f.2 < x.2
      · rw [if_pos hc]; exact ⟨le_of_lt hc, le_refl _⟩
      · rw [if_neg hc]; exact ⟨le_refl _, le_of_not_lt hc⟩
    rcases List.mem_cons.mp hg with h | h
    · rw [h]
      exact le_trans hstep.1
        (ih (if f.2 < x.2 then x else f) _ (List.mem_cons_self _ _))
    · rcases List.mem_cons.mp h with h2 | h2
      · rw [h2]
        exact le_trans hstep.2
          (ih (if f.2 < x.2 then x else f) _ (List.mem_cons_self _ _))
      · exact ih (if f.2 < x.2 then x else f) g (List.mem_cons_of_mem _ h2)

theorem maxMtimeFold_map (rn : Str → Str) :
    ∀ (rest : List (Str × Int)) (f : Str × Int),
      maxMtimeFold (rn f.1, f.2) (rest.map fun x => (rn x.1, x.2))
        = (rn (maxMtimeFold f rest).1, (maxMtimeFold f rest).2) := by
  intro rest
  induction rest with
  | nil => intro f; rfl
  | cons x xs ih =>
    intro f
    unfold maxMtimeFold at ih ⊢
    rw [List.map_cons, List.foldl_cons, List.foldl_cons]
    have hstep : (if (rn f.1, f.2).2 < (rn x.1, x.2).2 then (rn x.1, x.2) else (rn f.1, f.2))
        = ((rn (if f.2 < x.2 then x else f).1), (if f.2 < x.2 then x else f).2) := by
      by_cases hc : f.2 < x.2
      · rw [if_pos hc, if_pos hc]
      · rw [if_neg hc, if_neg hc]
    rw [hstep]
    exact ih (if f.2 < x.2 then x else f)

-- ### Claim C9

/-- C9, confirmed.  (1) When no eligible file exists (name not matching
`DD_MM_YYYY.xlsx` or excluded), the search returns `none`.  (2) A
returned file is an eligible directory entry of maximal modification
time among all eligible entries.  (3) The embedded date is never
consulted: renaming files in any way that preserves pattern-match
status leaves the selection at the same entry.  (4) With no prior file
the merge proceeds with no existing keys: every case is emitted and
nothing is carried forward. -/
theorem C9_latest_file_selection :
    (∀ (files : List (Str × Int)) (exclude : Option Str),
        (∀ f ∈ files, matchesDatePattern f.1 = false ∨ excludedB exclude f.1 = true) →
        find_latest_excel_file files exclude = none)
  ∧ (∀ (files : List (Str × Int)) (exclude : Option Str) (name : Str),
        find_latest_excel_file files exclude = some name →
        ∃ m : Int, (name, m) ∈ files ∧ matchesDatePattern name = true
          ∧ excludedB exclude name = false
          ∧ ∀ g ∈ files, matchesDatePattern g.1 = true → excludedB exclude g.1 = false →
              g.2 ≤ m)
  ∧ (∀ (files : List (Str × Int)) (rn : Str → Str),
        (∀ n, matchesDatePattern (rn n) = matchesDatePattern n) →
        find_latest_excel_file (files.map fun f => (rn f.1, f.2)) none
          = (find_latest_excel_file files none).map rn)
  ∧ (∀ (cases : List Case) (llm : Str → Option CaseResults),
        process_and_save_cases cases llm .noFile
          = ⟨cases.map fun c => buildRow c (llm c.unique_title), cases.length⟩) := by
  refine ⟨?_, ?_, ?_, ?_⟩
  · intro files exclude h
    unfold find_latest_excel_file
    rw [List.filter_eq_nil_iff.mpr (fun f hf => by
      rcases h f hf with h2 | h2 <;> simp [h2])]
  · intro files exclude name hfind
    unfold find_latest_excel_file at hfind
    cases hfil : files.filter (fun f => matchesDatePattern f.1 && !excludedB exclude f.1) with
    | nil => rw [hfil] at hfind; exact absurd hfind (by simp)
    | cons f rest =>
      rw [hfil] at hfind
      have hname : (maxMtimeFold f rest).1 = name := by
        injection hfind
      have hmem : maxMtimeFold f rest ∈ f :: rest := maxMtimeFold_mem rest f
      rw [← hfil] at hmem
      rw [List.mem_filter] at hmem
      obtain ⟨hmemf, hcond⟩ := hmem
      rw [Bool.and_eq_true, Bool.not_eq_true'] at hcond
      refine ⟨(maxMtimeFold f rest).2, ?_, ?_, ?_, ?_⟩
      · rw [← hname, Prod.mk.eta]
        exact hmemf
      · rw [← hname]; exact hcond.1
      · rw [← hname]; exact hcond.2
      · intro g hg hgm hge
        apply maxMtimeFold_max rest f
        rw [← hfil, List.mem_filter]
        exact ⟨hg, by simp [hgm, hge]⟩
  · intro files rn hrn
    unfold find_latest_excel_file
    rw [show (files.map fun f => (rn f.1, f.2)).filter
          (fun f => matchesDatePattern f.1 && !excludedB none f.1)
        = (files.filter (fun f => matchesDatePattern f.1 && !excludedB none f.1)).map
          (fun f => (rn f.1, f.2)) from ?_]
    · cases hfil : files.filter (fun f => matchesDatePattern f.1 && !excludedB none f.1) with
      | nil => rfl
      | cons f rest =>
        simp only [List.map_cons]
        show some (maxMtimeFold (rn f.1, f.2) (rest.map fun x => (rn x.1, x.2))).1
            = some (rn (maxMtimeFold f rest).1)
        rw [maxMtimeFold_map rn rest f]
    · rw [List.filter_map]
      congr 1
      apply List.filter_congr
      intro x _
      show (matchesDatePattern (rn x.1) && !excludedB none (rn x.1))
          = (matchesDatePattern x.1 && !excludedB none x.1)
      rw [hrn]
      rfl
  · intro cases llm
    show (⟨(cases.foldl (mergeStep (existingKeysOf .noFile) llm) ⟨[], 0⟩).records
        ++ carriedOf .noFile,
        (cases.foldl (mergeStep (existingKeysOf .noFile) llm) ⟨[], 0⟩).newCount⟩ : MergeResult)
      = _
    rw [show existingKeysOf .noFile = [] from rfl,
      show carriedOf .noFile = [] from rfl,
      (foldl_mergeStep [] llm cases ⟨[], 0⟩).1,
      (foldl_mergeStep [] llm cases ⟨[], 0⟩).2,
      List.nil_append, List.append_nil, newRowsOf_nil_keys]
    rw [MergeResult.mk.injEq]
    exact ⟨rfl, by simp [newRowsOf_nil_keys]⟩

/-- C9 witness: a folder with no file matching the date pattern yields
no prior, and the merge with no prior emits the single case and carries
nothing forward. -/
theorem C9_latest_file_selection_witness :
    find_latest_excel_file
        [("notes.txt".toList, (9 : Int)), ("bak_01_01_2024.xlsx".toList, 8)] none = none
    ∧ process_and_save_cases
        [⟨"t".toList, "t c".toList, "u".toList, "c".toList, "d".toList⟩]
        (fun _ => none) .noFile
      = ⟨[buildRow ⟨"t".toList, "t c".toList, "u".toList, "c".toList, "d".toList⟩ none], 1⟩ :=
  ⟨C9_latest_file_selection.1 _ none (by decide),
   C9_latest_file_selection.2.2.2
     [⟨"t".toList, "t c".toList, "u".toList, "c".toList, "d".toList⟩] (fun _ => none)⟩
